import Mathlib

/-!
Verification of the MetaCore airdrop Telegram bot (bot.py) and its
withdrawal settlement workers (process.py, payment_process.py).

The Python sources are shallowly embedded: each handler or worker routine
becomes a pure Lean function over an explicit state, remote database calls
become list or function-store updates, and the nondeterministic outcomes of
remote queries (chat-member lookups, on-chain transfers) become explicit
input parameters.  Monetary amounts are modelled as rationals.
-/

/-! ## Wallet address validation (bot.py, is_valid_bsc_address / process_wallet_address)

The source validates with the Python expression
  re.match(r"^0x[a-fA-F0-9]\x7b40\x7d$", address) is not None.
Python regex semantics:  re.match anchors at the start of the string, and
the dollar anchor matches at the end of the string OR just before a single
newline that ends the string.  The embedding below reproduces exactly that:
after the literal "0x" come 40 hexadecimal characters, and the remaining
characters must be either nothing or a single final newline.
-/

def isHexChar (c : Char) : Bool :=
  (decide ('0' ≤ c) && decide (c ≤ '9')) ||
  (decide ('a' ≤ c) && decide (c ≤ 'f')) ||
  (decide ('A' ≤ c) && decide (c ≤ 'F'))

def validAddrChars : List Char → Bool
  | c0 :: c1 :: rest =>
      decide (c0 = '0') && decide (c1 = 'x') &&
      decide ((rest.take 40).length = 40) && (rest.take 40).all isHexChar &&
      (decide (rest.drop 40 = []) || decide (rest.drop 40 = ['\n']))
  | _ => false

def is_valid_bsc_address (s : String) : Bool :=
  validAddrChars s.data

/-- Python str.strip with no arguments removes leading and trailing
whitespace; the ASCII whitespace characters are modelled here. -/
def isPyWhitespace (c : Char) : Bool :=
  decide (c = ' ') || decide (c = '\t') || decide (c = '\n') ||
  decide (c = '\r') || decide (c = '\x0b') || decide (c = '\x0c')

def pyStrip (s : String) : String :=
  String.mk (((s.data.dropWhile isPyWhitespace).reverse.dropWhile isPyWhitespace).reverse)

/-- bot.py process_wallet_address: strips the inbound text, and persists the
address as the user wallet exactly when the validator accepts it (returning
some persisted address), otherwise re-prompts (none). -/
def process_wallet_address (text : String) : Option String :=
  let address := pyStrip text
  if is_valid_bsc_address address then some address else none

/-- The address format as the spec words it: the two characters 0x followed
by exactly 40 hexadecimal characters and nothing else. -/
def SpecAddrExact (l : List Char) : Prop :=
  ∃ h : List Char, h.length = 40 ∧ (∀ c ∈ h, isHexChar c = true) ∧
    l = '0' :: 'x' :: h

/-- The acceptance set the code actually has, under Python dollar-anchor
semantics: the exact format, or the exact format followed by one final
newline character. -/
def SpecAddrPython (l : List Char) : Prop :=
  ∃ h : List Char, h.length = 40 ∧ (∀ c ∈ h, isHexChar c = true) ∧
    (l = '0' :: 'x' :: h ∨ l = '0' :: 'x' :: (h ++ ['\n']))

def fortyZeros : List Char := List.replicate 40 '0'

/-- A 43-character input accepted by the validator despite the trailing
newline: the Python dollar anchor matches just before a final newline. -/
def newlineAddr : String := String.mk ('0' :: 'x' :: (fortyZeros ++ ['\n']))

theorem validAddrChars_iff (l : List Char) :
    validAddrChars l = true ↔ SpecAddrPython l := by
  constructor
  · intro hv
    match l with
    | [] => simp [validAddrChars] at hv
    | [c0] => simp [validAddrChars] at hv
    | c0 :: c1 :: rest =>
      simp only [validAddrChars, Bool.and_eq_true, Bool.or_eq_true,
        decide_eq_true_eq, List.all_eq_true] at hv
      obtain ⟨⟨⟨⟨hc0, hc1⟩, hlen⟩, hhex⟩, htail⟩ := hv
      subst hc0; subst hc1
      refine ⟨rest.take 40, hlen, hhex, ?_⟩
      have hsplit : rest.take 40 ++ rest.drop 40 = rest := List.take_append_drop 40 rest
      rcases htail with htail | htail
      · left
        simp only [htail, List.append_nil] at hsplit
        rw [hsplit]
      · right
        rw [htail] at hsplit
        rw [hsplit]
  · rintro ⟨h, hlen, hhex, hl | hl⟩ <;> subst hl
    · simp only [validAddrChars, decide_eq_true_eq, List.all_eq_true]
      have ht : h.take 40 = h := List.take_of_length_le (le_of_eq hlen)
      have hd : h.drop 40 = [] := List.drop_eq_nil_of_le (le_of_eq hlen)
      simp only [ht, hd, hlen]
      simpa using hhex
    · simp only [validAddrChars, decide_eq_true_eq, List.all_eq_true]
      have ht : (h ++ ['\n']).take 40 = h := by
        rw [← hlen]; exact List.take_left h ['\n']
      have hd : (h ++ ['\n']).drop 40 = ['\n'] := by
        rw [← hlen]; exact List.drop_left h ['\n']
      simp only [ht, hd, hlen]
      simpa using hhex

/-- C7 counterexample: the validator accepts a string of length 43 whose
last character is a newline, while the claim says every string other than
0x plus exactly 40 hexadecimal characters (in particular one of wrong
length, or with an extra non-hex character) is rejected. -/
theorem c7_counterexample :
    is_valid_bsc_address newlineAddr = true ∧
    newlineAddr.data.length = 43 ∧ ¬ SpecAddrExact newlineAddr.data := by
  refine ⟨by decide, by decide, ?_⟩
  rintro ⟨h, hlen, _, heq⟩
  have : newlineAddr.data.length = ('0' :: 'x' :: h).length := by rw [heq]
  simp only [List.length_cons, hlen] at this
  simp [newlineAddr, fortyZeros] at this

/-- C7 (amended): the validator accepts a string exactly when it is 0x
followed by 40 hexadecimal characters, optionally followed by one trailing
newline (Python dollar-anchor semantics); and the wallet handler persists
only an address the validator accepts. -/
theorem c7_amended (s : String) (t : String) :
    (is_valid_bsc_address s = true ↔ SpecAddrPython s.data) ∧
    (∀ a, process_wallet_address t = some a → is_valid_bsc_address a = true) := by
  refine ⟨validAddrChars_iff s.data, ?_⟩
  intro a ha
  unfold process_wallet_address at ha
  by_cases hv : is_valid_bsc_address (pyStrip t) = true
  · simp only [hv, if_true, Option.some.injEq] at ha
    rw [← ha]; exact hv
  · simp only [hv] at ha
    simp at ha

/-- Closed instance of c7_amended: a canonical 42-character address is
accepted, and a wallet-handler input with surrounding whitespace persists
only a validated address. -/
theorem c7_amended_witness :
    (is_valid_bsc_address (String.mk ('0' :: 'x' :: fortyZeros)) = true ↔
      SpecAddrPython (String.mk ('0' :: 'x' :: fortyZeros)).data) ∧
    (∀ a, process_wallet_address (String.mk ('0' :: 'x' :: fortyZeros)) = some a →
      is_valid_bsc_address a = true) :=
  c7_amended (String.mk ('0' :: 'x' :: fortyZeros)) (String.mk ('0' :: 'x' :: fortyZeros))

/-! ## Group membership check (bot.py, check_group_membership)

The source loops over REQUIRED_GROUPS, calling get_chat_member for each.
A reported status of left or kicked returns False at once; an exception
raised for one group is caught and also returns False at once; any other
reported status lets the loop continue; an exhausted loop returns True.
-/

/-- Outcome of one get_chat_member query: the reported status string, or
the call raising an exception. -/
inductive GroupQuery where
  | ok (status : String)
  | failure
deriving DecidableEq, Repr

/-- bot.py check_group_membership.  The second component counts how many
group queries were actually issued before the function returned, making the
early return observable in the model. -/
def check_group_membership : List GroupQuery → Bool × Nat
  | [] => (true, 0)
  | .failure :: _ => (false, 1)
  | .ok st :: rest =>
      if st = "left" ∨ st = "kicked" then (false, 1)
      else
        let r := check_group_membership rest
        (r.1, r.2 + 1)

/-- A query result that lets the loop continue: the call succeeded and the
reported status is neither left nor kicked. -/
def passesQuery : GroupQuery → Bool
  | .ok st => ! (decide (st = "left") || decide (st = "kicked"))
  | .failure => false

theorem cgm_fst_iff (gs : List GroupQuery) :
    (check_group_membership gs).1 = true ↔ ∀ g ∈ gs, passesQuery g = true := by
  induction gs with
  | nil => simp [check_group_membership]
  | cons g rest ih =>
    cases g with
    | failure => simp [check_group_membership, passesQuery]
    | ok st =>
      by_cases hst : st = "left" ∨ st = "kicked"
      · simp only [check_group_membership, if_pos hst]
        constructor
        · intro h; exact absurd h (by simp)
        · intro h
          have := h (.ok st) (by simp)
          simp [passesQuery] at this
          rcases hst with h1 | h1 <;> simp [h1] at this
      · simp only [check_group_membership, if_neg hst]
        constructor
        · intro h g hg
          rcases List.mem_cons.mp hg with rfl | hg
          · simp [passesQuery]
            push_neg at hst
            exact ⟨hst.1, hst.2⟩
          · exact ih.mp h g hg
        · intro h
          exact ih.mpr fun g hg => h g (List.mem_cons_of_mem _ hg)

theorem cgm_all_queried (gs : List GroupQuery) :
    (check_group_membership gs).1 = true → (check_group_membership gs).2 = gs.length := by
  induction gs with
  | nil => intro; simp [check_group_membership]
  | cons g rest ih =>
    cases g with
    | failure => intro h; simp [check_group_membership] at h
    | ok st =>
      by_cases hst : st = "left" ∨ st = "kicked"
      · intro h; simp [check_group_membership, if_pos hst] at h
      · intro h
        simp only [check_group_membership, if_neg hst] at h ⊢
        simp [ih h]

theorem cgm_short_circuit (pre : List GroupQuery) (g : GroupQuery)
    (post : List GroupQuery) (hpre : ∀ p ∈ pre, passesQuery p = true)
    (hg : passesQuery g = false) :
    check_group_membership (pre ++ g :: post) = (false, pre.length + 1) := by
  induction pre with
  | nil =>
    cases g with
    | failure => simp [check_group_membership]
    | ok st =>
      simp only [passesQuery, Bool.not_eq_false', Bool.or_eq_true,
        decide_eq_true_eq] at hg
      simp [check_group_membership, if_pos hg]
  | cons p pre ih =>
    have hp : passesQuery p = true := hpre p (by simp)
    cases p with
    | failure => simp [passesQuery] at hp
    | ok st =>
      simp only [passesQuery, Bool.not_eq_true', Bool.or_eq_false_iff,
        decide_eq_false_iff_not] at hp
      have hst : ¬ (st = "left" ∨ st = "kicked") := by
        push_neg; exact ⟨hp.1, hp.2⟩
      have ihres := ih fun q hq => hpre q (List.mem_cons_of_mem _ hq)
      simp only [List.cons_append, check_group_membership, if_neg hst, List.append_eq]
      rw [ihres]
      simp

/-- C8 counterexample: a reported status of restricted, which is none of
member, creator, administrator, still counts as a member; and after a
query failure for the first group the second group is never queried. -/
theorem c8_counterexample :
    (check_group_membership [.ok "restricted"]).1 = true ∧
    ("restricted" ≠ "member" ∧ "restricted" ≠ "creator" ∧
      "restricted" ≠ "administrator") ∧
    (check_group_membership [.failure, .ok "member"]).2 = 1 := by
  exact ⟨by decide, by decide, by decide⟩

/-- C8 (amended): the check classifies the user as a member exactly when
every group query succeeds with a status other than left or kicked (any
other status, restricted included, counts as member); a passing run queries
every group; a query failure or a left/kicked status makes the whole check
return not-a-member immediately, and the groups after the first failing one
are not queried at all. -/
theorem c8_amended (gs : List GroupQuery) :
    ((check_group_membership gs).1 = true ↔ ∀ g ∈ gs, passesQuery g = true) ∧
    ((check_group_membership gs).1 = true →
      (check_group_membership gs).2 = gs.length) ∧
    (∀ pre g post, gs = pre ++ g :: post →
      (∀ p ∈ pre, passesQuery p = true) → passesQuery g = false →
      check_group_membership gs = (false, pre.length + 1)) := by
  refine ⟨cgm_fst_iff gs, cgm_all_queried gs, ?_⟩
  intro pre g post hgs hpre hg
  rw [hgs]
  exact cgm_short_circuit pre g post hpre hg

/-- Closed instance of c8_amended: with a passing first group and a failing
second query, the run stops after two queries and reports not-a-member. -/
theorem c8_amended_witness :
    check_group_membership
      [GroupQuery.ok "member", GroupQuery.failure, GroupQuery.ok "member"] =
      (false, 2) :=
  (c8_amended [GroupQuery.ok "member", GroupQuery.failure, GroupQuery.ok "member"]).2.2
    [GroupQuery.ok "member"] GroupQuery.failure [GroupQuery.ok "member"]
    rfl (by decide) (by decide)

/-! ## Group verification handler (bot.py, verify_group_membership)

On the button press the handler first returns the user to the main menu if
the group-bonus flag is already set.  Otherwise the source reads
  if True:  (with the comment: change to: if await check_group_membership)
so the membership check is never performed: the flags are set, the
group-join bonus is credited through add_balance, and the user moves to the
main menu unconditionally.  The else branch that re-prompts with the
missing groups is dead code.  The membership-query argument below is
therefore never consulted, mirroring the source.
-/

inductive UserState where
  | main
  | joining_groups
  | setting_telegram
  | setting_twitter
  | setting_wallet
  | withdrawing
deriving DecidableEq, Repr

structure BotUser where
  joined_all_groups : Bool
  has_received_group_bonus : Bool
  balance : ℚ
deriving DecidableEq, Repr

def verify_group_membership (u : BotUser) (group_join_bonus : ℚ)
    (_memberships : List GroupQuery) : BotUser × UserState :=
  if u.has_received_group_bonus then (u, .main)
  else
    ({ joined_all_groups := true, has_received_group_bonus := true,
       balance := u.balance + group_join_bonus }, .main)

/-- C4 (code bug): with the group-bonus flag unset and every required group
reporting status left, the handler still sets both flags, credits the
group-join bonus of 500 and moves the user to the main menu, because the
membership check is short-circuited by a literal True in the source; the
same query results make the real check_group_membership report failure. -/
theorem c4_bonus_credited_without_check :
    verify_group_membership ⟨false, false, 0⟩ 500
        [.ok "left", .ok "left", .ok "left"] =
      (⟨true, true, 500⟩, .main) ∧
    (check_group_membership [.ok "left", .ok "left", .ok "left"]).1 = false := by
  exact ⟨by simp [verify_group_membership], by decide⟩

/-- C6: group-bonus crediting is idempotent.  Once the bonus-received flag
is set, the handler returns the user row unchanged (balance included) and
only places the user back in the main-menu state, whatever the membership
queries would report. -/
theorem c6_group_bonus_idempotent (u : BotUser) (bonus : ℚ)
    (memberships : List GroupQuery) (h : u.has_received_group_bonus = true) :
    verify_group_membership u bonus memberships = (u, .main) := by
  simp [verify_group_membership, h]

/-- Closed instance of c6_group_bonus_idempotent at a concrete user. -/
theorem c6_group_bonus_idempotent_witness :
    verify_group_membership ⟨true, true, 1500⟩ 500
        [.ok "member", .ok "member", .ok "member"] = (⟨true, true, 1500⟩, .main) :=
  c6_group_bonus_idempotent ⟨true, true, 1500⟩ 500
    [.ok "member", .ok "member", .ok "member"] rfl

/-! ## Referral crediting (bot.py, credit_referrer / create_user / start) -/

/-- One add_balance remote call issued on the referral path: the credited
user, the amount, and the referred user named in the description. -/
structure RefCredit where
  user_id : ℤ
  amount : ℚ
  referred : ℤ
deriving DecidableEq, Repr

/-- The tables the referral path touches: the referrals rows (inviter,
referred, bonus_credited) and the add_balance calls issued. -/
structure RefDB where
  referrals : List (ℤ × ℤ × Bool)
  credits : List RefCredit
deriving DecidableEq, Repr

/-- The select in credit_referrer: does a referrals row with this
(inviter, referred) pair exist. -/
def referralExists (db : RefDB) (inviter referred : ℤ) : Bool :=
  db.referrals.any (fun row => decide (row.1 = inviter) && decide (row.2.1 = referred))

/-- bot.py credit_referrer: if a row for the pair already exists, return
with no writes; otherwise issue the add_balance call for the referral
bonus and insert the row with bonus_credited true. -/
def credit_referrer (db : RefDB) (referral_bonus : ℚ) (inviter referred : ℤ) : RefDB :=
  if referralExists db inviter referred then db
  else
    { referrals := db.referrals ++ [(inviter, referred, true)],
      credits := db.credits ++ [⟨inviter, referral_bonus, referred⟩] }

def referralRows (db : RefDB) (inviter referred : ℤ) : List (ℤ × ℤ × Bool) :=
  db.referrals.filter (fun row => decide (row.1 = inviter) && decide (row.2.1 = referred))

def referralCredits (db : RefDB) (inviter referred : ℤ) : List RefCredit :=
  db.credits.filter (fun c => decide (c.user_id = inviter) && decide (c.referred = referred))

/-- n successive invocations of credit_referrer for one pair. -/
def iterateCredit (db : RefDB) (b : ℚ) (inviter referred : ℤ) : Nat → RefDB
  | 0 => db
  | n + 1 => credit_referrer (iterateCredit db b inviter referred n) b inviter referred

theorem credit_referrer_of_exists (db : RefDB) (b : ℚ) (i r : ℤ)
    (h : referralExists db i r = true) : credit_referrer db b i r = db := by
  simp [credit_referrer, h]

theorem referralExists_after (db : RefDB) (b : ℚ) (i r : ℤ) :
    referralExists (credit_referrer db b i r) i r = true := by
  unfold credit_referrer
  by_cases h : referralExists db i r = true
  · simp [h]
  · rw [Bool.not_eq_true] at h
    simp only [h, Bool.false_eq_true, if_false]
    simp [referralExists, List.any_append]

theorem credit_referrer_first (db : RefDB) (b : ℚ) (i r : ℤ)
    (h : referralExists db i r = false) :
    referralRows (credit_referrer db b i r) i r = referralRows db i r ++ [(i, r, true)] ∧
    referralCredits (credit_referrer db b i r) i r =
      referralCredits db i r ++ [⟨i, b, r⟩] := by
  simp only [credit_referrer, h, Bool.false_eq_true, if_false]
  constructor
  · simp [referralRows, List.filter_append]
  · simp [referralCredits, List.filter_append]

/-- C5: referral crediting is idempotent.  Starting from a state with no
row and no referral credit for the pair, any positive number of repeated
credit_referrer invocations for the same (inviter, referred) pair leaves
exactly one referrals row for the pair and exactly one bonus credit to the
inviter for that referred user. -/
theorem c5_referral_idempotent (db : RefDB) (b : ℚ) (i r : ℤ) (n : Nat)
    (hrow : referralRows db i r = []) (hcred : referralCredits db i r = []) :
    referralRows (iterateCredit db b i r (n + 1)) i r = [(i, r, true)] ∧
    referralCredits (iterateCredit db b i r (n + 1)) i r = [⟨i, b, r⟩] := by
  induction n with
  | zero =>
    have hex : referralExists db i r = false := by
      by_contra hx
      rw [Bool.not_eq_false] at hx
      rw [referralExists, List.any_eq_true] at hx
      obtain ⟨row, hmem, hrowp⟩ := hx
      have : row ∈ referralRows db i r := List.mem_filter.mpr ⟨hmem, hrowp⟩
      rw [hrow] at this
      exact absurd this (List.not_mem_nil row)
    have := credit_referrer_first db b i r hex
    simp only [iterateCredit]
    rw [this.1, this.2, hrow, hcred]
    simp
  | succ m ih =>
    have hex : referralExists (iterateCredit db b i r (m + 1)) i r = true := by
      show referralExists (credit_referrer (iterateCredit db b i r m) b i r) i r = true
      exact referralExists_after _ b i r
    have hstep : iterateCredit db b i r (m + 1 + 1) = iterateCredit db b i r (m + 1) := by
      show credit_referrer (iterateCredit db b i r (m + 1)) b i r =
        iterateCredit db b i r (m + 1)
      exact credit_referrer_of_exists _ b i r hex
    rw [hstep]
    exact ih

/-- Closed instance of c5_referral_idempotent: two invocations on an empty
state produce one row and one credit. -/
theorem c5_referral_idempotent_witness :
    referralRows (iterateCredit ⟨[], []⟩ 4000 1 2 2) 1 2 = [(1, 2, true)] ∧
    referralCredits (iterateCredit ⟨[], []⟩ 4000 1 2 2) 1 2 = [⟨1, 4000, 2⟩] :=
  c5_referral_idempotent ⟨[], []⟩ 4000 1 2 1 (by decide) (by decide)

/-- A freshly inserted users row, with the fields create_user sets that
matter here: the stored inviter and the initial balance (the signup
bonus), plus the two onboarding flags. -/
structure NewUserRow where
  id : ℤ
  invited_by : Option ℤ
  balance : ℚ
  joined_all_groups : Bool
  has_received_group_bonus : Bool
deriving DecidableEq, Repr

/-- bot.py start, referral parsing: the payload is consulted only when the
first /start argument begins with ref; the remainder is parsed with the
Python int constructor, passed in abstractly as parseInt (a ValueError is
none); a parse failure or a parsed id equal to the sender leaves the
inviter unset. -/
def resolve_invited_by (parseInt : String → Option ℤ) (args : List String)
    (uid : ℤ) : Option ℤ :=
  match args with
  | [] => none
  | arg :: _ =>
      if arg.startsWith "ref" then
        match parseInt (arg.drop 3) with
        | none => none
        | some n => if n = uid then none else some n
      else none

/-- Python truthiness of the optional inviter id: None and 0 are falsy. -/
def pyTruthyInt : Option ℤ → Bool
  | none => false
  | some n => decide (n ≠ 0)

/-- bot.py create_user: insert the users row with the given invited_by and
the signup bonus as initial balance, then call credit_referrer exactly when
invited_by is truthy. -/
def create_user (db : RefDB) (signup_bonus referral_bonus : ℚ) (uid : ℤ)
    (invited_by : Option ℤ) : NewUserRow × RefDB :=
  ({ id := uid, invited_by := invited_by, balance := signup_bonus,
     joined_all_groups := false, has_received_group_bonus := false },
   if pyTruthyInt invited_by then
     credit_referrer db referral_bonus (invited_by.getD 0) uid
   else db)

/-- C10: a /start whose referral payload parses to the sender's own id, or
whose payload does not parse as an integer, resolves to no inviter; the
user row is then created with invited_by unset and the referral tables
(rows and credits alike) are untouched, so nobody is credited. -/
theorem c10_self_referral_ignored (parseInt : String → Option ℤ)
    (arg : String) (rest : List String) (uid : ℤ) (db : RefDB) (sb rb : ℚ)
    (h : parseInt (arg.drop 3) = none ∨ parseInt (arg.drop 3) = some uid) :
    resolve_invited_by parseInt (arg :: rest) uid = none ∧
    (create_user db sb rb uid
        (resolve_invited_by parseInt (arg :: rest) uid)).1.invited_by = none ∧
    (create_user db sb rb uid
        (resolve_invited_by parseInt (arg :: rest) uid)).2 = db := by
  have hres : resolve_invited_by parseInt (arg :: rest) uid = none := by
    unfold resolve_invited_by
    by_cases hs : arg.startsWith "ref"
    · rcases h with h | h <;> simp [hs, h]
    · simp [hs]
  refine ⟨hres, ?_, ?_⟩
  · rw [hres]; rfl
  · rw [hres]
    simp [create_user, pyTruthyInt]

/-- Closed instance of c10_self_referral_ignored: payload ref7 sent by user
7 leaves the inviter unset and the referral tables untouched. -/
theorem c10_self_referral_ignored_witness :
    resolve_invited_by (fun _ => some 7) ["ref7"] 7 = none ∧
    (create_user ⟨[], []⟩ 1000 4000 7
        (resolve_invited_by (fun _ => some 7) ["ref7"] 7)).1.invited_by = none ∧
    (create_user ⟨[], []⟩ 1000 4000 7
        (resolve_invited_by (fun _ => some 7) ["ref7"] 7)).2 = (⟨[], []⟩ : RefDB) :=
  c10_self_referral_ignored (fun _ => some 7) "ref7" [] 7 ⟨[], []⟩ 1000 4000
    (Or.inr rfl)

/-! ## Withdrawal request creation (bot.py, process_withdrawal_amount)

In the WITHDRAWING state the handler lowercases and strips the text; the
literal all means the whole balance, otherwise the text (commas removed)
must parse as a number; an amount below the configured minimum or above the
balance re-prompts with the bounds and changes nothing; otherwise a
withdrawals row with status pending is inserted and subtract_balance debits
the amount, and the user returns to the main menu.
-/

/-- The parsed withdrawal input: the literal all, a parsed number, or text
that failed float parsing (the ValueError branch). -/
inductive WInput where
  | all
  | num (a : ℚ)
  | invalid
deriving DecidableEq, Repr

/-- The amount the handler works with for a given balance and input. -/
def requestedAmount (balance : ℚ) : WInput → ℚ
  | .all => balance
  | .num a => a
  | .invalid => 0

/-- A created withdrawals row: requested amount and status string. -/
structure WdRequest where
  amount : ℚ
  status : String
deriving DecidableEq, Repr

/-- Result of one process_withdrawal_amount invocation: the withdrawals
rows inserted, the balance after the handler, the conversation state it
leaves the user in, and whether the user was re-prompted. -/
structure WdOutcome where
  created : List WdRequest
  newBalance : ℚ
  state : UserState
  reprompted : Bool
deriving DecidableEq, Repr

/-- bot.py process_withdrawal_amount for a user with the given balance and
configured minimum. -/
def process_withdrawal_amount (balance min_amount : ℚ) (inp : WInput) : WdOutcome :=
  match inp with
  | .invalid => ⟨[], balance, .withdrawing, true⟩
  | _ =>
      let amount := requestedAmount balance inp
      if amount < min_amount ∨ balance < amount then
        ⟨[], balance, .withdrawing, true⟩
      else
        ⟨[⟨amount, "pending"⟩], balance - amount, .main, false⟩

/-- C1: with balance b and minimum m, a numeric or all input with effective
amount a creates a withdrawal request iff m is at most a and a is at most
b; on success exactly one pending row for a is created, the balance drops
to b minus a and the user returns to the main menu; on failure nothing is
created, the balance is unchanged and the user is re-prompted in the
withdrawing state.  In particular balance 5000, minimum 4000 and input all
create one pending request for 5000 and leave balance 0. -/
theorem c1_withdrawal_bounds (b m : ℚ) (inp : WInput) (hinp : inp ≠ .invalid) :
    (let a := requestedAmount b inp
     let o := process_withdrawal_amount b m inp
     (o.created ≠ [] ↔ (m ≤ a ∧ a ≤ b)) ∧
     ((m ≤ a ∧ a ≤ b) →
        o.created = [⟨a, "pending"⟩] ∧ o.newBalance = b - a ∧ o.state = .main) ∧
     (¬ (m ≤ a ∧ a ≤ b) →
        o.created = [] ∧ o.newBalance = b ∧ o.state = .withdrawing ∧
          o.reprompted = true)) ∧
    process_withdrawal_amount 5000 4000 .all = ⟨[⟨5000, "pending"⟩], 0, .main, false⟩ := by
  constructor
  · have hred : process_withdrawal_amount b m inp =
        (if requestedAmount b inp < m ∨ b < requestedAmount b inp then
          (⟨[], b, .withdrawing, true⟩ : WdOutcome)
         else (⟨[⟨requestedAmount b inp, "pending"⟩],
           b - requestedAmount b inp, .main, false⟩ : WdOutcome)) := by
      cases inp with
      | all => rfl
      | num a => rfl
      | invalid => exact absurd rfl hinp
    set a := requestedAmount b inp with ha
    by_cases hok : a < m ∨ b < a
    · have hnot : ¬ (m ≤ a ∧ a ≤ b) := by
        rintro ⟨h1, h2⟩
        rcases hok with h3 | h3
        · exact absurd h1 (not_le.mpr h3)
        · exact absurd h2 (not_le.mpr h3)
      rw [hred, if_pos hok]
      refine ⟨?_, ?_, ?_⟩
      · simp [hnot]
      · intro h; exact absurd h hnot
      · intro _; exact ⟨rfl, rfl, rfl, rfl⟩
    · have hyes : m ≤ a ∧ a ≤ b := by
        push_neg at hok
        exact ⟨hok.1, hok.2⟩
      rw [hred, if_neg hok]
      refine ⟨?_, ?_, ?_⟩
      · simp [hyes]
      · intro _; exact ⟨rfl, rfl, rfl⟩
      · intro h; exact absurd hyes h
  · norm_num [process_withdrawal_amount, requestedAmount]

/-- Closed instance of c1_withdrawal_bounds: the all scenario at balance
5000 and minimum 4000, and the in-bounds success facts it implies. -/
theorem c1_withdrawal_bounds_witness :
    (process_withdrawal_amount 5000 4000 .all).created = [⟨5000, "pending"⟩] ∧
    (process_withdrawal_amount 5000 4000 .all).newBalance = 5000 - 5000 ∧
    (process_withdrawal_amount 5000 4000 .all).state = .main :=
  ((c1_withdrawal_bounds 5000 4000 .all (by decide)).1.2.1
    (by norm_num [requestedAmount]))

/-! ## Settlement batch loop (process.py process_single_batch;
payment_process.py process_approved_withdrawals)

The worker iterates over the approved withdrawals of one batch.  The body
for each record sits in its own try/except: a validation failure marks the
record failed and refunds it and continues; a confirmed transfer marks it
paid with the transaction hash and logs the outgoing amount; a failed or
timed-out transfer marks it failed and refunds it; an exception anywhere in
the attempt is caught, the record is marked failed and refunded, and the
loop continues with the next record.  payment_process.py has the same
per-record try/except/continue structure (plus a skip branch when the
treasury balance cannot cover a record).
-/

/-- One add_balance or status bookkeeping credit row: credited user,
amount, type tag, and the withdrawal id named in the description. -/
structure Credit where
  user_id : ℤ
  amount : ℚ
  ctype : String
  ref : Nat
deriving DecidableEq, Repr

/-- Environment outcome for the attempt on one approved withdrawal:
validation rejects it, the transfer confirms with a transaction hash (the
hex digest following the 0x of tx_hash.hex()), the transfer fails or times
out, or an exception is raised during the attempt. -/
inductive AttemptOutcome where
  | validationFail
  | confirmed (hexdigits : String)
  | transferFail
  | exceptionRaised
deriving DecidableEq, Repr

/-- One approved withdrawal handed to the worker, with what the
environment does when the worker attempts it. -/
structure BatchItem where
  wid : Nat
  user_id : ℤ
  amount : ℚ
  outcome : AttemptOutcome
deriving DecidableEq, Repr

/-- What the loop body did to one record. -/
structure ItemResult where
  wid : Nat
  finalStatus : String
  tx_hash : Option String
  refunded : Bool
deriving DecidableEq, Repr

/-- The refund credit the worker issues for one failed record. -/
def refundOfItem (it : BatchItem) : Credit :=
  ⟨it.user_id, it.amount, "refund", it.wid⟩

/-- The per-record body of process_single_batch. -/
def processOne (it : BatchItem) : ItemResult :=
  match it.outcome with
  | .validationFail => ⟨it.wid, "failed", none, true⟩
  | .confirmed hexdigits => ⟨it.wid, "paid", some ("0x" ++ hexdigits), false⟩
  | .transferFail => ⟨it.wid, "failed", none, true⟩
  | .exceptionRaised => ⟨it.wid, "failed", none, true⟩

/-- An attempt outcome the claim calls a failure. -/
def attemptFails : AttemptOutcome → Bool
  | .confirmed _ => false
  | _ => true

structure BatchRunResult where
  results : List ItemResult
  credits : List Credit
  successful : Nat
  failed : Nat
deriving DecidableEq, Repr

/-- process.py process_single_batch: the sequential loop over one batch of
approved withdrawals, accumulating per-record results, refund credits and
the success/failure counters it logs. -/
def process_single_batch : List BatchItem → BatchRunResult
  | [] => ⟨[], [], 0, 0⟩
  | it :: rest =>
      let r := processOne it
      let tail := process_single_batch rest
      { results := r :: tail.results,
        credits := (if r.refunded then [refundOfItem it] else []) ++ tail.credits,
        successful := (if r.finalStatus = "paid" then 1 else 0) + tail.successful,
        failed := (if r.finalStatus = "failed" then 1 else 0) + tail.failed }

/-- C9: batch processing is isolating.  The records after the first are
processed identically whatever happens to the first record; every record
of a batch gets exactly one result (no early abort); and a record whose
attempt fails (validation failure, transfer failure or timeout, or an
exception) is marked failed and refunded once, after which the worker
continues with the rest of the batch. -/
theorem c9_batch_isolation (x : BatchItem) (rest : List BatchItem) :
    ((process_single_batch (x :: rest)).results =
        processOne x :: (process_single_batch rest).results) ∧
    (∀ items : List BatchItem,
        (process_single_batch items).results.length = items.length) ∧
    (attemptFails x.outcome = true →
      (processOne x).finalStatus = "failed" ∧ (processOne x).refunded = true ∧
      (process_single_batch (x :: rest)).credits =
        refundOfItem x :: (process_single_batch rest).credits) := by
  refine ⟨rfl, ?_, ?_⟩
  · intro items
    induction items with
    | nil => rfl
    | cons it tl ih => simp [process_single_batch, ih]
  · intro hf
    cases hx : x.outcome with
    | validationFail =>
      refine ⟨?_, ?_, ?_⟩ <;> simp [processOne, process_single_batch, hx]
    | confirmed hexdigits => rw [hx] at hf; simp [attemptFails] at hf
    | transferFail =>
      refine ⟨?_, ?_, ?_⟩ <;> simp [processOne, process_single_batch, hx]
    | exceptionRaised =>
      refine ⟨?_, ?_, ?_⟩ <;> simp [processOne, process_single_batch, hx]

/-- Closed instance of c9_batch_isolation: a failing first record is
marked failed and refunded, and its refund is the only extra credit
relative to processing the rest of the batch alone. -/
theorem c9_batch_isolation_witness :
    (processOne ⟨1, 10, 5000, .transferFail⟩).finalStatus = "failed" ∧
    (processOne ⟨1, 10, 5000, .transferFail⟩).refunded = true ∧
    (process_single_batch
        [⟨1, 10, 5000, .transferFail⟩, ⟨2, 11, 4000, .confirmed "ab"⟩]).credits =
      refundOfItem ⟨1, 10, 5000, .transferFail⟩ ::
        (process_single_batch [⟨2, 11, 4000, .confirmed "ab"⟩]).credits :=
  (c9_batch_isolation ⟨1, 10, 5000, .transferFail⟩
    [⟨2, 11, 4000, .confirmed "ab"⟩]).2.2 (by decide)

/-! ## Stuck-processing janitor (process.py cleanup_stuck_withdrawals;
payment_process.py cleanup_old_processing)

Both janitors select the records with status processing and, for each one
with a recorded processed_at older than the cutoff, mark it failed and
refund its amount; exceptions inside the per-record body are caught and
leave that record untouched.  They differ in how the cutoff is built:
process.py uses datetime.now(timezone.utc) minus 10 minutes (a
timezone-aware value, compared against the timezone-aware parse of the
stored timestamp; the source comments call this the fixed, safe
comparison), while payment_process.py uses datetime.now() minus 30 minutes
(a naive value).  In Python, ordering a timezone-aware datetime against a
naive one raises TypeError, so in payment_process.py the comparison raises
for every record, the per-record except swallows it, and no record is ever
cleaned.
-/

/-- A Python datetime value: naive (no timezone attached) or
timezone-aware, with the instant it denotes in seconds. -/
inductive PyDatetime where
  | naive (t : ℤ)
  | aware (t : ℤ)
deriving DecidableEq, Repr

/-- Python comparison of two datetimes: comparing naive with aware raises
TypeError (none); otherwise compare the instants. -/
def pyDatetimeLt : PyDatetime → PyDatetime → Option Bool
  | .naive a, .naive b => some (decide (a < b))
  | .aware a, .aware b => some (decide (a < b))
  | _, _ => none

/-- A withdrawals row as the janitors see it: the stored processed_at
string parses to a timezone-aware datetime (the tables store timestamps
with an offset). -/
structure JanWithdrawal where
  wid : Nat
  user_id : ℤ
  amount : ℚ
  status : String
  processed_at : Option PyDatetime
deriving DecidableEq, Repr

/-- The per-record janitor body: with no recorded timestamp nothing
happens; a comparison that raises TypeError is caught by the per-record
except and leaves the record untouched; a stale timestamp marks the record
failed and issues the refund credit. -/
def janitorOne (cutoff : PyDatetime) (w : JanWithdrawal) :
    JanWithdrawal × List Credit :=
  match w.processed_at with
  | none => (w, [])
  | some pt =>
      match pyDatetimeLt pt cutoff with
      | some true =>
          ({ w with status := "failed" }, [⟨w.user_id, w.amount, "refund", w.wid⟩])
      | some false => (w, [])
      | none => (w, [])

/-- A full janitor run: only the records selected by status processing go
through the body; all others are untouched. -/
def janitorRun (cutoff : PyDatetime) : List JanWithdrawal →
    List JanWithdrawal × List Credit
  | [] => ([], [])
  | w :: rest =>
      let tail := janitorRun cutoff rest
      if w.status = "processing" then
        let one := janitorOne cutoff w
        (one.1 :: tail.1, one.2 ++ tail.2)
      else (w :: tail.1, tail.2)

/-- process.py cleanup_stuck_withdrawals: timezone-aware cutoff, now in
UTC minus 10 minutes. -/
def cleanup_stuck_withdrawals (now_utc : ℤ) (ws : List JanWithdrawal) :
    List JanWithdrawal × List Credit :=
  janitorRun (.aware (now_utc - 600)) ws

/-- payment_process.py cleanup_old_processing: naive cutoff, local now
minus 30 minutes, compared against the timezone-aware stored timestamp. -/
def cleanup_old_processing (now_local : ℤ) (ws : List JanWithdrawal) :
    List JanWithdrawal × List Credit :=
  janitorRun (.naive (now_local - 1800)) ws

/-- C3 (code bug): for a record stuck in processing well past both
staleness windows, the process.py janitor transitions it to failed with
exactly one refund credit, and a second run leaves it alone (the refund is
issued exactly once); but the payment_process.py janitor leaves the same
record in processing with no refund, because its naive cutoff cannot be
compared with the timezone-aware stored timestamp (TypeError, swallowed
per record). -/
theorem c3_janitor_staleness (wid : Nat) (u : ℤ) (a : ℚ) (t now : ℤ)
    (hstale : t < now - 1800) :
    cleanup_stuck_withdrawals now [⟨wid, u, a, "processing", some (.aware t)⟩] =
      ([⟨wid, u, a, "failed", some (.aware t)⟩], [⟨u, a, "refund", wid⟩]) ∧
    cleanup_stuck_withdrawals now [⟨wid, u, a, "failed", some (.aware t)⟩] =
      ([⟨wid, u, a, "failed", some (.aware t)⟩], []) ∧
    cleanup_old_processing now [⟨wid, u, a, "processing", some (.aware t)⟩] =
      ([⟨wid, u, a, "processing", some (.aware t)⟩], []) := by
  have hlt : t < now - 600 := by linarith
  refine ⟨?_, ?_, ?_⟩
  · simp [cleanup_stuck_withdrawals, janitorRun, janitorOne, pyDatetimeLt, hlt]
  · simp [cleanup_stuck_withdrawals, janitorRun]
  · simp [cleanup_old_processing, janitorRun, janitorOne, pyDatetimeLt]

/-- Closed instance of c3_janitor_staleness at a concrete stale record. -/
theorem c3_janitor_staleness_witness :
    cleanup_stuck_withdrawals 100000 [⟨5, 9, 4500, "processing", some (.aware 0)⟩] =
      ([⟨5, 9, 4500, "failed", some (.aware 0)⟩], [⟨9, 4500, "refund", 5⟩]) ∧
    cleanup_stuck_withdrawals 100000 [⟨5, 9, 4500, "failed", some (.aware 0)⟩] =
      ([⟨5, 9, 4500, "failed", some (.aware 0)⟩], []) ∧
    cleanup_old_processing 100000 [⟨5, 9, 4500, "processing", some (.aware 0)⟩] =
      ([⟨5, 9, 4500, "processing", some (.aware 0)⟩], []) :=
  c3_janitor_staleness 5 9 4500 0 100000 (by norm_num)

/-! ## Withdrawal lifecycle ledger
(bot.py process_withdrawal_amount / approve_withdrawal / reject_withdrawal /
process_payment; process.py process_single_batch; both janitors)

The lifecycle of the withdrawals table and of the add_balance refund calls
is modelled as a transition system.  The store is a function table keyed by
the row id; the credits list records every add_balance call of type refund
together with the withdrawal id its description names.  One constructor per
code path that touches a withdrawal status:

* create: the handler inserts a pending row (C1);
* approve / reject: the admin inline buttons on the notification message,
  available while the request is pending (bot.py approve_withdrawal and
  reject_withdrawal; reject refunds the amount through add_balance);
* approvedFail: the worker fails validation of an approved record, marks
  it failed and refunds (process.py lines 246-264, also the exception
  branch when it fires before the processing mark);
* startProcessing: the worker claims an approved record;
* confirmPaid: the transfer confirms; tx_hash.hex() is stored, a string
  that always starts with 0x;
* processingFail: the transfer fails or times out, or an exception is
  raised after the processing mark, or a janitor reclaims a stale
  processing record: mark failed, refund once;
* botPaid: bot.py process_payment marks an approved record paid directly,
  storing either the receipt hash (0x prefixed) or one of the
  testnet_simulation_/testnet_fallback_ placeholder identifiers.
-/

inductive WStatus where
  | pending
  | approved
  | processing
  | paid
  | failed
  | rejected
deriving DecidableEq, Repr

structure WRec where
  user_id : ℤ
  amount : ℚ
  status : WStatus
  tx_hash : Option String
deriving DecidableEq, Repr

structure LedgerDB where
  next : Nat
  tbl : Nat → Option WRec
  credits : List Credit

def emptyLedger : LedgerDB := ⟨0, fun _ => none, []⟩

def setW (db : LedgerDB) (id : Nat) (w : WRec) : LedgerDB :=
  { db with tbl := fun j => if j = id then some w else db.tbl j }

def refundOf (id : Nat) (w : WRec) : Credit :=
  ⟨w.user_id, w.amount, "refund", id⟩

def addRefund (db : LedgerDB) (id : Nat) (w : WRec) : LedgerDB :=
  { db with credits := db.credits ++ [refundOf id w] }

/-- The refund credits whose description names withdrawal id. -/
def refundsFor (db : LedgerDB) (id : Nat) : List Credit :=
  db.credits.filter (fun c => decide (c.ctype = "refund" ∧ c.ref = id))

inductive LStep : LedgerDB → LedgerDB → Prop where
  | create {d : LedgerDB} (u : ℤ) (a : ℚ) :
      LStep d { next := d.next + 1,
                tbl := fun j =>
                  if j = d.next then some ⟨u, a, .pending, none⟩ else d.tbl j,
                credits := d.credits }
  | approve {d : LedgerDB} (id : Nat) (w : WRec)
      (h : d.tbl id = some w) (hs : w.status = .pending) :
      LStep d (setW d id { w with status := .approved })
  | reject {d : LedgerDB} (id : Nat) (w : WRec)
      (h : d.tbl id = some w) (hs : w.status = .pending) :
      LStep d (addRefund (setW d id { w with status := .rejected }) id w)
  | approvedFail {d : LedgerDB} (id : Nat) (w : WRec)
      (h : d.tbl id = some w) (hs : w.status = .approved) :
      LStep d (addRefund (setW d id { w with status := .failed }) id w)
  | startProcessing {d : LedgerDB} (id : Nat) (w : WRec)
      (h : d.tbl id = some w) (hs : w.status = .approved) :
      LStep d (setW d id { w with status := .processing })
  | confirmPaid {d : LedgerDB} (id : Nat) (w : WRec) (hexdigits : String)
      (h : d.tbl id = some w) (hs : w.status = .processing) :
      LStep d (setW d id
        { w with status := .paid, tx_hash := some ("0x" ++ hexdigits) })
  | processingFail {d : LedgerDB} (id : Nat) (w : WRec)
      (h : d.tbl id = some w) (hs : w.status = .processing) :
      LStep d (addRefund (setW d id { w with status := .failed }) id w)
  | botPaid {d : LedgerDB} (id : Nat) (w : WRec) (pfx sfx : String)
      (hp : pfx = "0x" ∨ pfx = "testnet_simulation_" ∨ pfx = "testnet_fallback_")
      (h : d.tbl id = some w) (hs : w.status = .approved) :
      LStep d (setW d id { w with status := .paid, tx_hash := some (pfx ++ sfx) })

inductive LReach : LedgerDB → Prop where
  | init : LReach emptyLedger
  | step {d d' : LedgerDB} (hr : LReach d) (hs : LStep d d') : LReach d'

/-- The settlement bookkeeping invariant, with the auxiliary facts the
induction needs: each failed or rejected row has exactly its one refund
credit; each row not yet failed or rejected has none; each paid row has a
nonempty transaction id; row ids are below the allocation bound; refund
descriptions name allocated rows. -/
def LedgerInvStrong (db : LedgerDB) : Prop :=
  (∀ id w, db.tbl id = some w →
    ((w.status = .failed ∨ w.status = .rejected) →
      refundsFor db id = [refundOf id w]) ∧
    (w.status = .paid → ∃ h, w.tx_hash = some h ∧ h ≠ "")) ∧
  (∀ id w, db.tbl id = some w →
    ¬ (w.status = .failed ∨ w.status = .rejected) → refundsFor db id = []) ∧
  (∀ id, db.next ≤ id → db.tbl id = none) ∧
  (∀ c ∈ db.credits, c.ref < db.next)

theorem setW_tbl_self (db : LedgerDB) (id : Nat) (w : WRec) :
    (setW db id w).tbl id = some w := by
  simp [setW]

theorem setW_tbl_ne (db : LedgerDB) (id : Nat) (w : WRec) (j : Nat)
    (h : j ≠ id) : (setW db id w).tbl j = db.tbl j := by
  simp [setW, h]

theorem refundsFor_addRefund_self (db : LedgerDB) (id : Nat) (w : WRec) :
    refundsFor (addRefund db id w) id = refundsFor db id ++ [refundOf id w] := by
  unfold refundsFor addRefund
  rw [List.filter_append]
  simp [refundOf]

theorem refundsFor_addRefund_ne (db : LedgerDB) (id : Nat) (w : WRec)
    (j : Nat) (h : j ≠ id) :
    refundsFor (addRefund db id w) j = refundsFor db j := by
  unfold refundsFor addRefund
  rw [List.filter_append]
  have : (refundOf id w).ref ≠ j := fun hc => h (hc.symm)
  simp [refundOf] at this ⊢
  intro hcontra
  exact absurd hcontra.symm h

theorem id_lt_next {db : LedgerDB} (H3 : ∀ id, db.next ≤ id → db.tbl id = none)
    {id : Nat} {w : WRec} (h : db.tbl id = some w) : id < db.next := by
  by_contra hge
  push_neg at hge
  rw [H3 id hge] at h
  exact Option.noConfusion h

theorem append_ne_empty_of_left (p s : String) (hp : p.data ≠ []) :
    p ++ s ≠ "" := by
  intro hcontra
  have h2 : (p ++ s).data = ("" : String).data := by rw [hcontra]
  rw [String.data_append] at h2
  exact hp (List.append_eq_nil.mp h2).1

theorem strong_setW {d : LedgerDB} (i : Nat) (w neww : WRec)
    (h : d.tbl i = some w) (H : LedgerInvStrong d)
    (hterm_old : ¬ (w.status = .failed ∨ w.status = .rejected))
    (hterm_new : ¬ (neww.status = .failed ∨ neww.status = .rejected))
    (hpaid : neww.status = .paid → ∃ hh, neww.tx_hash = some hh ∧ hh ≠ "") :
    LedgerInvStrong (setW d i neww) := by
  obtain ⟨H1, H2, H3, H4⟩ := H
  refine ⟨?_, ?_, ?_, ?_⟩
  · intro j v hv
    by_cases hj : j = i
    · subst hj
      rw [setW_tbl_self] at hv
      injection hv with hv
      subst hv
      exact ⟨fun ht => absurd ht hterm_new, hpaid⟩
    · rw [setW_tbl_ne d i neww j hj] at hv
      exact ⟨fun ht => (H1 j v hv).1 ht, (H1 j v hv).2⟩
  · intro j v hv hterm
    by_cases hj : j = i
    · subst hj
      exact H2 j w h hterm_old
    · rw [setW_tbl_ne d i neww j hj] at hv
      exact H2 j v hv hterm
  · intro j hj
    have hj2 : d.next ≤ j := hj
    have hid : i < d.next := id_lt_next H3 h
    have hne : j ≠ i := by omega
    rw [setW_tbl_ne d i neww j hne]
    exact H3 j hj2
  · exact H4

theorem strong_refund {d : LedgerDB} (i : Nat) (w : WRec) (T : WStatus)
    (h : d.tbl i = some w) (H : LedgerInvStrong d)
    (hterm_old : ¬ (w.status = .failed ∨ w.status = .rejected))
    (hT : T = .failed ∨ T = .rejected) :
    LedgerInvStrong (addRefund (setW d i { w with status := T }) i w) := by
  obtain ⟨H1, H2, H3, H4⟩ := H
  have hid : i < d.next := id_lt_next H3 h
  have hzero : refundsFor d i = [] := H2 i w h hterm_old
  refine ⟨?_, ?_, ?_, ?_⟩
  · intro j v hv
    by_cases hj : j = i
    · subst hj
      have hv2 : (setW d j { w with status := T }).tbl j = some v := hv
      rw [setW_tbl_self] at hv2
      injection hv2 with hv2
      subst hv2
      constructor
      · intro _
        rw [refundsFor_addRefund_self]
        have hz2 : refundsFor (setW d j { w with status := T }) j = [] := hzero
        rw [hz2]
        rfl
      · intro hpaid
        rcases hT with rfl | rfl <;> exact WStatus.noConfusion hpaid
    · have hv2 : (setW d i { w with status := T }).tbl j = some v := hv
      rw [setW_tbl_ne _ _ _ _ hj] at hv2
      constructor
      · intro ht
        rw [refundsFor_addRefund_ne _ _ _ _ hj]
        exact (H1 j v hv2).1 ht
      · exact (H1 j v hv2).2
  · intro j v hv hterm
    by_cases hj : j = i
    · subst hj
      have hv2 : (setW d j { w with status := T }).tbl j = some v := hv
      rw [setW_tbl_self] at hv2
      injection hv2 with hv2
      subst hv2
      exfalso
      apply hterm
      rcases hT with rfl | rfl
      · exact Or.inl rfl
      · exact Or.inr rfl
    · have hv2 : (setW d i { w with status := T }).tbl j = some v := hv
      rw [setW_tbl_ne _ _ _ _ hj] at hv2
      rw [refundsFor_addRefund_ne _ _ _ _ hj]
      exact H2 j v hv2 hterm
  · intro j hj
    have hj2 : d.next ≤ j := hj
    have hne : j ≠ i := by omega
    have hstep : (setW d i { w with status := T }).tbl j = d.tbl j :=
      setW_tbl_ne _ _ _ _ hne
    exact hstep.trans (H3 j hj2)
  · intro c hc
    have hc2 : c ∈ d.credits ++ [refundOf i w] := hc
    rcases List.mem_append.mp hc2 with hold | hnew
    · have := H4 c hold
      show c.ref < d.next
      exact this
    · have hcr : c = refundOf i w := by simpa using hnew
      subst hcr
      show (refundOf i w).ref < d.next
      exact hid

theorem strong_create {d : LedgerDB} (u : ℤ) (a : ℚ) (H : LedgerInvStrong d) :
    LedgerInvStrong
      { next := d.next + 1,
        tbl := fun j =>
          if j = d.next then some ⟨u, a, .pending, none⟩ else d.tbl j,
        credits := d.credits } := by
  obtain ⟨H1, H2, H3, H4⟩ := H
  have hfresh : refundsFor d d.next = [] := by
    unfold refundsFor
    rw [List.filter_eq_nil_iff]
    intro c hc
    have := H4 c hc
    simp only [decide_eq_true_eq]
    rintro ⟨_, h2⟩
    omega
  refine ⟨?_, ?_, ?_, ?_⟩
  · intro j v hv
    by_cases hj : j = d.next
    · subst hj
      have hv2 : (if d.next = d.next then some (⟨u, a, .pending, none⟩ : WRec)
          else d.tbl d.next) = some v := hv
      rw [if_pos rfl] at hv2
      injection hv2 with hv2
      subst hv2
      exact ⟨fun ht => by rcases ht with ht | ht <;> exact WStatus.noConfusion ht,
             fun hp => WStatus.noConfusion hp⟩
    · have hv2 : (if j = d.next then some (⟨u, a, .pending, none⟩ : WRec)
          else d.tbl j) = some v := hv
      rw [if_neg hj] at hv2
      exact ⟨fun ht => (H1 j v hv2).1 ht, (H1 j v hv2).2⟩
  · intro j v hv hterm
    by_cases hj : j = d.next
    · subst hj
      exact hfresh
    · have hv2 : (if j = d.next then some (⟨u, a, .pending, none⟩ : WRec)
          else d.tbl j) = some v := hv
      rw [if_neg hj] at hv2
      exact H2 j v hv2 hterm
  · intro j hj
    have hj2 : d.next + 1 ≤ j := hj
    have h1 : d.next ≤ j := by omega
    have hne : j ≠ d.next := by omega
    show (if j = d.next then some (⟨u, a, .pending, none⟩ : WRec)
        else d.tbl j) = none
    rw [if_neg hne]
    exact H3 j h1
  · intro c hc
    have hlt := H4 c hc
    show c.ref < d.next + 1
    omega

theorem lstep_preserves {d d' : LedgerDB} (hst : LStep d d')
    (H : LedgerInvStrong d) : LedgerInvStrong d' := by
  cases hst with
  | create u a => exact strong_create u a H
  | approve i w h hs =>
      refine strong_setW i w _ h H (by simp [hs]) ?_ ?_
      · rintro (ht | ht) <;> exact WStatus.noConfusion ht
      · intro hp; exact WStatus.noConfusion hp
  | reject i w h hs =>
      exact strong_refund i w .rejected h H (by simp [hs]) (Or.inr rfl)
  | approvedFail i w h hs =>
      exact strong_refund i w .failed h H (by simp [hs]) (Or.inl rfl)
  | startProcessing i w h hs =>
      refine strong_setW i w _ h H (by simp [hs]) ?_ ?_
      · rintro (ht | ht) <;> exact WStatus.noConfusion ht
      · intro hp; exact WStatus.noConfusion hp
  | confirmPaid i w hexdigits h hs =>
      refine strong_setW i w _ h H (by simp [hs]) ?_ ?_
      · rintro (ht | ht) <;> exact WStatus.noConfusion ht
      · intro _
        exact ⟨"0x" ++ hexdigits, rfl,
          append_ne_empty_of_left "0x" hexdigits (by decide)⟩
  | processingFail i w h hs =>
      exact strong_refund i w .failed h H (by simp [hs]) (Or.inl rfl)
  | botPaid i w pfx sfx hp h hs =>
      refine strong_setW i w _ h H (by simp [hs]) ?_ ?_
      · rintro (ht | ht) <;> exact WStatus.noConfusion ht
      · intro _
        refine ⟨pfx ++ sfx, rfl, ?_⟩
        rcases hp with rfl | rfl | rfl <;>
          exact append_ne_empty_of_left _ _ (by decide)

theorem lreach_strong (db : LedgerDB) (h : LReach db) : LedgerInvStrong db := by
  induction h with
  | init =>
      refine ⟨?_, ?_, ?_, ?_⟩
      · intro id w hw; exact Option.noConfusion hw
      · intro id w hw hterm; exact Option.noConfusion hw
      · intro id _; rfl
      · intro c hc; exact absurd hc (List.not_mem_nil c)
  | step hr hs ih => exact lstep_preserves hs ih

/-- C2: in every database state reachable through the modelled withdrawal
lifecycle, a withdrawal row whose status is failed or rejected has exactly
one compensating refund credit, of exactly its amount, issued to its owning
user (the refund list for its id is the singleton refund of its amount and
user); and a row whose status is paid carries a nonempty transaction
identifier. -/
theorem c2_settlement_invariant (db : LedgerDB) (hr : LReach db) :
    ∀ id w, db.tbl id = some w →
      ((w.status = .failed ∨ w.status = .rejected) →
        refundsFor db id = [refundOf id w]) ∧
      (w.status = .paid → ∃ h, w.tx_hash = some h ∧ h ≠ "") :=
  (lreach_strong db hr).1

def dbA : LedgerDB :=
  { next := emptyLedger.next + 1,
    tbl := fun j =>
      if j = emptyLedger.next then some ⟨7, 5000, .pending, none⟩
      else emptyLedger.tbl j,
    credits := emptyLedger.credits }

def dbB : LedgerDB := setW dbA 0 ⟨7, 5000, .approved, none⟩

def dbC : LedgerDB := setW dbB 0 ⟨7, 5000, .processing, none⟩

/-- A concrete reachable state: one withdrawal created, approved, claimed
for processing, and then failed with its refund. -/
def demoLedger : LedgerDB :=
  addRefund (setW dbC 0 ⟨7, 5000, .failed, none⟩) 0 ⟨7, 5000, .processing, none⟩

/-- Closed instance of c2_settlement_invariant: in the concrete run whose
withdrawal of 5000 by user 7 failed after processing, that withdrawal id
has exactly its one refund credit. -/
theorem c2_settlement_invariant_witness :
    refundsFor demoLedger 0 = [refundOf 0 ⟨7, 5000, WStatus.failed, none⟩] :=
  (c2_settlement_invariant demoLedger
      (LReach.step (LReach.step (LReach.step (LReach.step LReach.init
        (LStep.create 7 5000))
        (LStep.approve 0 ⟨7, 5000, .pending, none⟩ rfl rfl))
        (LStep.startProcessing 0 ⟨7, 5000, .approved, none⟩ rfl rfl))
        (LStep.processingFail 0 ⟨7, 5000, .processing, none⟩ rfl rfl))
      0 ⟨7, 5000, .failed, none⟩ rfl).1 (Or.inl rfl)
